import Mathlib

/-!
Verification of the interactive hit-testing, viewport-transform and
collapse-state subsystem of the cactus-tree renderer.

The JavaScript sources are shallowly embedded: numbers become `ℚ`,
JS `Map`s become association lists with JS `Map.set`/`Map.get`
semantics, the mutable interaction-state record becomes an explicit
`GState` structure threaded through the handlers, and a handler that
would throw (dereference of a missing canvas) returns `Except.error`.
Observable side effects (scheduled renders, click-callback
invocations, exact hit-test invocations) are collected in an `Eff`
record returned next to the updated state.
-/

namespace Cactus

/-! ## Collapse/Expand state manager (src/lib/collapseAnimation.js) -/

/-- Ease-in-out cubic easing, from `easeInOutCubic` in collapseAnimation.js:
`t < 0.5 ? 4 * t * t * t : 1 - Math.pow(-2 * t + 2, 3) / 2`. -/
def easeInOutCubic (t : ℚ) : ℚ :=
  if t < 1/2 then 4*t*t*t else 1 - (-2*t + 2)^3/2

/-- Wrapped node reference, the `.node` field a child entry may carry. -/
structure NodeRef where
  id : String
deriving DecidableEq, Repr

/-- Child entry of the parent-to-children map: `{id, node?}`; the JS code
reads `child.node ? child.node.id : child.id`. -/
structure ChildEntry where
  id : String
  node : Option NodeRef
deriving DecidableEq, Repr

/-- Identifier extraction `child.node ? child.node.id : child.id`. -/
def childIdOf (c : ChildEntry) : String :=
  match c.node with
  | some n => n.id
  | none => c.id

/-- Parent-to-children map, embedded as an association list
(JS `Map<string, Array<child>>`; keys are unique in a JS Map, lookup
returns the first binding). -/
abbrev PMap : Type := List (String × List ChildEntry)

/-- Association-list lookup, the embedding of JS `Map.get`. -/
def plook {α : Type} : List (String × α) → String → Option α
  | [], _ => none
  | (k, v) :: t, key => if k = key then some v else plook t key

/-- Loop body of `getDescendantIds`: the JS `while` loop over an explicit
stack, with the head of the list as the top of the stack (JS pushes the
children in order and pops from the end, hence `reverse`), embedded with
a fuel argument bounding the number of iterations. -/
def getDescAux (m : PMap) : Nat → List String → List String → List String
  | 0, _, acc => acc
  | _ + 1, [], acc => acc
  | fuel + 1, currentId :: rest, acc =>
    match plook m currentId with
    | none => getDescAux m fuel rest acc
    | some children =>
        let ids := children.map childIdOf
        getDescAux m fuel (ids.reverse ++ rest) (acc ++ ids)

/-- Fuel bound: for a tree-shaped map every id is pushed at most once, so
one more than the total number of child entries bounds the pop count. -/
def descFuel (m : PMap) : Nat :=
  (m.map (fun p => p.2.length)).sum + 1

/-- Embedding of `getDescendantIds(nodeId, parentToChildrenNodeMap)`:
transitive closure of descendants by stack traversal. -/
def getDescendantIds (nodeId : String) (m : PMap) : List String :=
  getDescAux m (descFuel m) [nodeId] []

/-- Rendered position `{x, y}` of a node. -/
structure Pos where
  x : ℚ
  y : ℚ
deriving DecidableEq, Repr

/-- Map from node id to rendered position (read-only view of
`nodeIdToRenderedNodeMap`; only the `x`/`y` fields are consumed). -/
abbrev RMap : Type := List (String × Pos)

/-- Embedding of JS `Map.set`: replace the value of an existing key in
place, otherwise append a new binding. -/
def insertOv : List (String × Pos) → String → Pos → List (String × Pos)
  | [], k, v => [(k, v)]
  | (k', v') :: t, k, v =>
      if k' = k then (k', v) :: t else (k', v') :: insertOv t k v

/-- Body of the `for (const collapsedId of collapsedNodeIds)` loop of
`computeCollapsedPositions`: skip a collapsed id with no rendered
position, otherwise write the collapsed node's own position over every
descendant's entry. -/
def collapseStep (m : PMap) (rendered : RMap)
    (overrides : List (String × Pos)) (collapsedId : String) :
    List (String × Pos) :=
  match plook rendered collapsedId with
  | none => overrides
  | some anchorNode =>
      (getDescendantIds collapsedId m).foldl
        (fun ov i => insertOv ov i anchorNode) overrides

/-- Embedding of `computeCollapsedPositions(collapsedNodeIds,
parentToChildrenNodeMap, nodeIdToRenderedNodeMap)`: every descendant of
each collapsed node is mapped to the collapsed node's own rendered
position, later collapsed entries overwriting earlier assignments; a
collapsed id with no rendered position is skipped.  The set is embedded
as a list in iteration order. -/
def computeCollapsedPositions (collapsedNodeIds : List String) (m : PMap)
    (rendered : RMap) : List (String × Pos) :=
  collapsedNodeIds.foldl (collapseStep m rendered) []

/-! ## Hit-testing engine

The gesture controller imports `findHoveredNode` from drawNode.js and
`findHoveredLeafByVoronoi` from voronoiHover.js; those two modules are
not part of the sources at hand (only their tests and callers are), so
they are modelled from the spec. -/

/-- Rendered node as consumed by hit testing: centre, radius, id. -/
structure RenderedNode where
  x : ℚ
  y : ℚ
  radius : ℚ
  id : String
deriving DecidableEq, Repr

/-- Entry of the proximity index, index-aligned with the
nearest-neighbour structure: `{x, y, radius, nodeId}`. -/
structure LeafEntry where
  x : ℚ
  y : ℚ
  radius : ℚ
  nodeId : String
deriving DecidableEq, Repr

/-- Modelled from the spec: `findHoveredNode` of drawNode.js (module not
among the sources) is `findExactHit` — it returns the id of the node
whose circle (centre + radius) contains the point, by exact
point-in-circle comparison; the tie-break for overlapping nodes is the
spec's recommended deterministic rule, the last node in draw order. -/
def findHoveredNode (x y : ℚ) (nodes : List RenderedNode) : Option String :=
  nodes.foldl
    (fun acc n =>
      if (x - n.x)^2 + (y - n.y)^2 ≤ n.radius^2 then some n.id else acc)
    none

/-- Squared distance from a query point to a proximity-index entry. -/
def entryDist2 (x y : ℚ) (e : LeafEntry) : ℚ :=
  (x - e.x)^2 + (y - e.y)^2

/-- Modelled from the spec: the nearest-neighbour query of the proximity
index — the entry of minimal distance to the point (first of the minima,
deterministically). -/
def nearestEntry (x y : ℚ) : List LeafEntry → Option LeafEntry
  | [] => none
  | e :: rest =>
      some (rest.foldl
        (fun best c => if entryDist2 x y c < entryDist2 x y best then c else best)
        e)

/-- Modelled from the spec: `findHoveredLeafByVoronoi` of voronoiHover.js
(module not among the sources) is `findApproximateLeafHit` — find the
nearest leaf entry, accept it only if
`distance(point, leaf.center) ≤ leaf.radius + tolerance` (stated here on
squared distances, with the sign guard making it equivalent). -/
def findHoveredLeafByVoronoi (x y : ℚ) (voronoiData : List LeafEntry)
    (tolerance : ℚ) : Option String :=
  match nearestEntry x y voronoiData with
  | none => none
  | some e =>
      if 0 ≤ e.radius + tolerance ∧
          entryDist2 x y e ≤ (e.radius + tolerance)^2 then
        some e.nodeId
      else none

/-! ## Viewport transform and gesture controller (mouseHandlers.js) -/

/-- Canvas bounding rectangle, as read by `getBoundingClientRect`. -/
structure Rect where
  left : ℚ
  top : ℚ
deriving DecidableEq, Repr

/-- Canvas-local coordinates of an event. -/
structure Coords where
  x : ℚ
  y : ℚ
deriving DecidableEq, Repr

/-- Client coordinates carried by a mouse event or a touch point. -/
structure EventPoint where
  clientX : ℚ
  clientY : ℚ
deriving DecidableEq, Repr

/-- Wheel event: client coordinates plus scroll delta. -/
structure WheelEvent where
  clientX : ℚ
  clientY : ℚ
  deltaY : ℚ
deriving DecidableEq, Repr

/-- Touch event: current touch points and the touches that just changed. -/
structure TouchEvent where
  touches : List EventPoint
  changedTouches : List EventPoint
deriving DecidableEq, Repr

/-- The shared mutable interaction state threaded through every handler.
`canvas = none` models a missing DOM handle; `mouseDown = none` models
`_mouseDownX === undefined` (likewise `touchStart`); `onNodeClick`
records whether the optional click callback is registered. -/
structure GState where
  canvas : Option Rect
  pannable : Bool
  zoomable : Bool
  isDragging : Bool
  panX : ℚ
  panY : ℚ
  currentZoom : ℚ
  minZoomLimit : ℚ
  maxZoomLimit : ℚ
  lastMouseX : ℚ
  lastMouseY : ℚ
  mouseDown : Option Coords
  touchStart : Option Coords
  hoveredNodeId : Option String
  renderedNodes : List RenderedNode
  voronoiData : Option (List LeafEntry)
  leafHoverTolerance : Option ℚ
  onNodeClick : Bool
  touches : List EventPoint
  lastTouchDistance : ℚ
deriving DecidableEq, Repr

/-- Observable effects of one handler invocation: number of
`scheduleRender` calls, node ids passed to the click callback, and
number of exact hit-test (`findHoveredNode`) invocations. -/
structure Eff where
  renders : Nat
  clicks : List String
  hitTests : Nat
deriving DecidableEq, Repr

/-- The empty effect record. -/
def noEff : Eff := ⟨0, [], 0⟩

/-- Sequential composition of effect records. -/
def Eff.add (a b : Eff) : Eff :=
  ⟨a.renders + b.renders, a.clicks ++ b.clicks, a.hitTests + b.hitTests⟩

/-- Embedding of `getEventCoordinates(event, canvas)`: subtracts the
canvas bounding rectangle; dereferencing a missing canvas throws. -/
def getEventCoordinates (e : EventPoint) :
    Option Rect → Except Unit Coords
  | none => .error ()
  | some r => .ok ⟨e.clientX - r.left, e.clientY - r.top⟩

/-- Embedding of `handlePanning(state, currentX, currentY,
scheduleRender)`. -/
def handlePanning (st : GState) (currentX currentY : ℚ) : GState × Eff :=
  if st.isDragging ∧ st.pannable then
    ({ st with
        panX := st.panX + (currentX - st.lastMouseX)
        panY := st.panY + (currentY - st.lastMouseY)
        lastMouseX := currentX
        lastMouseY := currentY },
      { noEff with renders := 1 })
  else (st, noEff)

/-- Embedding of JS `Math.max` on two rationals. -/
def jmax (a b : ℚ) : ℚ := if a < b then b else a

/-- Embedding of JS `Math.min` on two rationals. -/
def jmin (a b : ℚ) : ℚ := if a < b then a else b

/-- The clamp `Math.max(min, Math.min(max, z))` used by `handleZoom`. -/
def clampZoom (lo hi z : ℚ) : ℚ := jmax lo (jmin hi z)

/-- Embedding of `handleZoom(state, zoomFactor, centerX, centerY, width,
height, scheduleRender)`; the Bool is the handler's return value
(whether zoom was applied). -/
def handleZoom (st : GState) (zoomFactor centerX centerY width height : ℚ) :
    GState × Eff × Bool :=
  if st.zoomable then
    let proposedZoom := st.currentZoom * zoomFactor
    if (proposedZoom > st.maxZoomLimit ∧ st.currentZoom ≥ st.maxZoomLimit) ∨
        (proposedZoom < st.minZoomLimit ∧ st.currentZoom ≤ st.minZoomLimit) then
      (st, noEff, false)
    else
      let newZoom := clampZoom st.minZoomLimit st.maxZoomLimit proposedZoom
      let canvasCenterX := width / 2
      let canvasCenterY := height / 2
      let worldX := (centerX - canvasCenterX - st.panX) / st.currentZoom
      let worldY := (centerY - canvasCenterY - st.panY) / st.currentZoom
      ({ st with
          panX := centerX - canvasCenterX - worldX * newZoom
          panY := centerY - canvasCenterY - worldY * newZoom
          currentZoom := newZoom },
        { noEff with renders := 1 }, true)
  else (st, noEff, false)

/-- Composite hover resolution performed inside `handleHoverDetection`:
exact hit first, then — only if it returned null and a proximity index
exists — the approximate leaf hit. -/
def resolveHover (st : GState) (transformedX transformedY : ℚ) :
    Option String :=
  match findHoveredNode transformedX transformedY st.renderedNodes with
  | some i => some i
  | none =>
      match st.voronoiData with
      | some vd =>
          findHoveredLeafByVoronoi transformedX transformedY vd
            (st.leafHoverTolerance.getD 15)
      | none => none

/-- Embedding of `handleHoverDetection(state, x, y, scheduleRender)`. -/
def handleHoverDetection (st : GState) (x y : ℚ) : GState × Eff :=
  if st.renderedNodes.isEmpty then (st, noEff)
  else
    let newHoveredNodeId := resolveHover st (x - st.panX) (y - st.panY)
    if newHoveredNodeId ≠ st.hoveredNodeId then
      ({ st with hoveredNodeId := newHoveredNodeId },
        { noEff with renders := 1, hitTests := 1 })
    else (st, { noEff with hitTests := 1 })

/-- Embedding of the handler built by `createMouseMoveHandler`. -/
def handleMouseMove (st : GState) (e : EventPoint) :
    Except Unit (GState × Eff) :=
  if st.canvas.isNone then .ok (st, noEff)
  else
    match getEventCoordinates e st.canvas with
    | .error u => .error u
    | .ok coords =>
        let p := handlePanning st coords.x coords.y
        let st2 := { p.1 with lastMouseX := coords.x, lastMouseY := coords.y }
        if st2.isDragging then .ok (st2, p.2)
        else
          let hv := handleHoverDetection st2 coords.x coords.y
          .ok (hv.1, (p.2).add hv.2)

/-- Embedding of the handler built by `createMouseDownHandler`; note the
source reads the canvas rectangle before any guard. -/
def handleMouseDown (st : GState) (e : EventPoint) :
    Except Unit (GState × Eff) :=
  match getEventCoordinates e st.canvas with
  | .error u => .error u
  | .ok coords =>
      let st1 := { st with mouseDown := some coords }
      if ¬ st1.pannable then .ok (st1, noEff)
      else
        .ok ({ st1 with
            isDragging := true
            lastMouseX := coords.x
            lastMouseY := coords.y }, noEff)

/-- Embedding of the handler built by `createMouseUpHandler`: clears the
drag flag, then — only when a down position was recorded, the canvas
exists and a click callback is registered — performs click detection
against the strict 25-unit squared-displacement threshold, hit-testing
with the exact finder alone. -/
def handleMouseUp (st : GState) (e : EventPoint) :
    Except Unit (GState × Eff) :=
  let st1 := { st with isDragging := false }
  match st.mouseDown, st.canvas, st.onNodeClick with
  | some down, some r, true =>
      let coords : Coords := ⟨e.clientX - r.left, e.clientY - r.top⟩
      let dx := coords.x - down.x
      let dy := coords.y - down.y
      if dx * dx + dy * dy < 25 then
        let clickedNodeId :=
          findHoveredNode (coords.x - st.panX) (coords.y - st.panY)
            st.renderedNodes
        match clickedNodeId with
        | some nid => .ok (st1, { noEff with clicks := [nid], hitTests := 1 })
        | none => .ok (st1, { noEff with hitTests := 1 })
      else .ok (st1, noEff)
  | _, _, _ => .ok (st1, noEff)

/-- Embedding of the handler built by `createMouseLeaveHandler`. -/
def handleMouseLeave (st : GState) : Except Unit (GState × Eff) :=
  let st1 := { st with isDragging := false }
  if st1.hoveredNodeId ≠ none then
    .ok ({ st1 with hoveredNodeId := none }, { noEff with renders := 1 })
  else .ok (st1, noEff)

/-- Embedding of the handler built by `createWheelHandler`: guard on the
canvas, then zoom with factor 0.9 on scroll-down (`deltaY > 0`) and 1.1
otherwise, centred at the event coordinates. -/
def handleWheel (st : GState) (e : WheelEvent) (width height : ℚ) :
    Except Unit (GState × Eff) :=
  if st.canvas.isNone then .ok (st, noEff)
  else
    match getEventCoordinates ⟨e.clientX, e.clientY⟩ st.canvas with
    | .error u => .error u
    | .ok coords =>
        let zoomFactor : ℚ := if e.deltaY > 0 then 9/10 else 11/10
        let z := handleZoom st zoomFactor coords.x coords.y width height
        .ok (z.1, z.2.1)

/-- Embedding of the handler built by `createTouchStartHandler`.  `sq`
models `Math.sqrt` (the square-root the pinch baseline is computed
with); it only feeds the stored inter-touch distance. -/
def handleTouchStart (sq : ℚ → ℚ) (st : GState) (e : TouchEvent) :
    Except Unit (GState × Eff) :=
  let st0 := { st with touches := e.touches }
  match e.touches with
  | [t1] =>
      match getEventCoordinates t1 st0.canvas with
      | .error u => .error u
      | .ok coords =>
          let st1 := { st0 with touchStart := some coords }
          let st2 :=
            if st1.pannable then
              { st1 with
                  isDragging := true
                  lastMouseX := coords.x
                  lastMouseY := coords.y }
            else st1
          let hv := handleHoverDetection st2 coords.x coords.y
          .ok (hv.1, hv.2)
  | [t1, t2] =>
      if st0.zoomable then
        match getEventCoordinates t1 st0.canvas with
        | .error u => .error u
        | .ok c1 =>
            match getEventCoordinates t2 st0.canvas with
            | .error u => .error u
            | .ok c2 =>
                .ok ({ st0 with
                    lastTouchDistance :=
                      sq ((c2.x - c1.x)^2 + (c2.y - c1.y)^2) }, noEff)
      else .ok (st0, noEff)
  | _ => .ok (st0, noEff)

/-- Embedding of the handler built by `createTouchMoveHandler`: one
active touch pans (when dragging and pannable), two active touches pinch
(when zoomable), dividing the current inter-touch distance by the stored
baseline when that baseline is positive. -/
def handleTouchMove (sq : ℚ → ℚ) (st : GState) (e : TouchEvent)
    (width height : ℚ) : Except Unit (GState × Eff) :=
  match e.touches with
  | [t1] =>
      if st.isDragging ∧ st.pannable then
        match getEventCoordinates t1 st.canvas with
        | .error u => .error u
        | .ok coords => .ok (handlePanning st coords.x coords.y)
      else .ok (st, noEff)
  | [t1, t2] =>
      if st.zoomable then
        match getEventCoordinates t1 st.canvas with
        | .error u => .error u
        | .ok c1 =>
            match getEventCoordinates t2 st.canvas with
            | .error u => .error u
            | .ok c2 =>
                let currentDistance := sq ((c2.x - c1.x)^2 + (c2.y - c1.y)^2)
                if st.lastTouchDistance > 0 then
                  let zoomFactor := currentDistance / st.lastTouchDistance
                  let centerX := (c1.x + c2.x) / 2
                  let centerY := (c1.y + c2.y) / 2
                  let z := handleZoom st zoomFactor centerX centerY width height
                  .ok ({ z.1 with lastTouchDistance := currentDistance }, z.2.1)
                else
                  .ok ({ st with lastTouchDistance := currentDistance }, noEff)
      else .ok (st, noEff)
  | _ => .ok (st, noEff)

/-- Embedding of the handler built by `createTouchEndHandler`: on the
last touch lifting, tap detection mirrors the mouse-up click detection
(strict 25 threshold, exact hit-test only); dropping from two touches to
one resets the pinch baseline and re-arms panning. -/
def handleTouchEnd (st : GState) (e : TouchEvent) :
    Except Unit (GState × Eff) :=
  let st0 := { st with touches := e.touches }
  match e.touches with
  | [] =>
      let st1 := { st0 with isDragging := false, lastTouchDistance := 0 }
      match e.changedTouches, st.touchStart, st.onNodeClick with
      | [t], some start, true =>
          match getEventCoordinates t st1.canvas with
          | .error u => .error u
          | .ok coords =>
              let dx := coords.x - start.x
              let dy := coords.y - start.y
              if dx * dx + dy * dy < 25 then
                let tappedNodeId :=
                  findHoveredNode (coords.x - st1.panX) (coords.y - st1.panY)
                    st1.renderedNodes
                match tappedNodeId with
                | some nid =>
                    .ok (st1, { noEff with clicks := [nid], hitTests := 1 })
                | none => .ok (st1, { noEff with hitTests := 1 })
              else .ok (st1, noEff)
      | _, _, _ => .ok (st1, noEff)
  | [t1] =>
      let st1 := { st0 with lastTouchDistance := 0 }
      if st1.pannable then
        match getEventCoordinates t1 st1.canvas with
        | .error u => .error u
        | .ok coords =>
            .ok ({ st1 with
                lastMouseX := coords.x
                lastMouseY := coords.y
                isDragging := true }, noEff)
      else .ok (st1, noEff)
  | _ => .ok (st0, noEff)

/-- Input events dispatched to the handlers created by
`createMouseHandlers` (canvas width and height are captured at creation
time, hence carried by the event constructors for wheel and touch
move). -/
inductive GEvent
  | mouseMove (e : EventPoint)
  | mouseDown (e : EventPoint)
  | mouseUp (e : EventPoint)
  | mouseLeave
  | wheel (e : WheelEvent) (width height : ℚ)
  | touchStart (e : TouchEvent)
  | touchMove (e : TouchEvent) (width height : ℚ)
  | touchEnd (e : TouchEvent)

/-- One step of the gesture controller: dispatch an input event to the
corresponding handler. -/
def step (sq : ℚ → ℚ) (st : GState) : GEvent → Except Unit (GState × Eff)
  | .mouseMove e => handleMouseMove st e
  | .mouseDown e => handleMouseDown st e
  | .mouseUp e => handleMouseUp st e
  | .mouseLeave => handleMouseLeave st
  | .wheel e w h => handleWheel st e w h
  | .touchStart e => handleTouchStart sq st e
  | .touchMove e w h => handleTouchMove sq st e w h
  | .touchEnd e => handleTouchEnd st e

/-- Run a sequence of gesture events, stopping at the first thrown
exception. -/
def runEvents (sq : ℚ → ℚ) (st : GState) : List GEvent → Except Unit GState
  | [] => .ok st
  | e :: rest =>
      match step sq st e with
      | .error u => .error u
      | .ok (st1, _) => runEvents sq st1 rest

/-! ## Concrete sample data for evaluating the model -/

/-- A baseline interaction state with the canvas attached, panning and
zooming enabled, identity transform and zoom limits `[1/2, 2]`. -/
def baseState : GState where
  canvas := some ⟨0, 0⟩
  pannable := true
  zoomable := true
  isDragging := false
  panX := 0
  panY := 0
  currentZoom := 1
  minZoomLimit := 1/2
  maxZoomLimit := 2
  lastMouseX := 0
  lastMouseY := 0
  mouseDown := none
  touchStart := none
  hoveredNodeId := none
  renderedNodes := []
  voronoiData := none
  leafHoverTolerance := none
  onNodeClick := false
  touches := []
  lastTouchDistance := 0

/-- State in which the exact hit at the origin misses (the only rendered
node is far away) but the proximity index contains a leaf right at the
origin; a mouse-down at the origin has been recorded and a click
callback is registered. -/
def hoverFallbackState : GState :=
  { baseState with
      onNodeClick := true
      mouseDown := some ⟨0, 0⟩
      renderedNodes := [⟨1000, 1000, 1, "n0"⟩]
      voronoiData := some [⟨0, 0, 5, "l1"⟩, ⟨100, 100, 5, "l2"⟩] }

/-- State with a node under the origin and a recorded mouse-down, but no
click callback registered. -/
def noCallbackState : GState :=
  { baseState with
      mouseDown := some ⟨0, 0⟩
      renderedNodes := [⟨0, 0, 5, "n0"⟩] }

/-- State whose canvas handle is missing. -/
def noCanvasState : GState :=
  { baseState with canvas := none }

/-- State with a node of radius 5 at the origin and a click callback
registered. -/
def clickState : GState :=
  { baseState with
      onNodeClick := true
      renderedNodes := [⟨0, 0, 5, "n0"⟩] }

/-- The spec's example tree `root → [a, b], a → [c, d], b → [e]`. -/
def sampleTree : PMap :=
  [("root", [⟨"a", some ⟨"a"⟩⟩, ⟨"b", some ⟨"b"⟩⟩]),
   ("a", [⟨"c", some ⟨"c"⟩⟩, ⟨"d", some ⟨"d"⟩⟩]),
   ("b", [⟨"e", some ⟨"e"⟩⟩])]

/-- The spec's example rendered positions for `sampleTree`. -/
def samplePositions : RMap :=
  [("root", ⟨100, 100⟩), ("a", ⟨200, 200⟩), ("b", ⟨300, 100⟩),
   ("c", ⟨250, 300⟩), ("d", ⟨150, 300⟩)]

/-- A depth bound witnessing that `sampleTree` is acyclic. -/
def sampleRank (s : String) : Nat :=
  if s = "root" then 2 else if s = "a" then 1 else if s = "b" then 1 else 0

deriving instance DecidableEq for Except

/-- The zoom-bounds invariant of the interaction state. -/
def ZoomInv (st : GState) : Prop :=
  st.minZoomLimit ≤ st.currentZoom ∧ st.currentZoom ≤ st.maxZoomLimit

/-- How one handler invocation may change the zoom-related fields: the
limits are never written, and `currentZoom` is either untouched or set
to the clamp of a proposed zoom. -/
def ZoomShape (st st' : GState) : Prop :=
  st'.minZoomLimit = st.minZoomLimit ∧ st'.maxZoomLimit = st.maxZoomLimit ∧
  (st'.currentZoom = st.currentZoom ∨
    ∃ f, st'.currentZoom =
      clampZoom st.minZoomLimit st.maxZoomLimit (st.currentZoom * f))

/-! ## Theorems -/

/-- Unfolding of the easing function on the first half. -/
lemma ease_eq_of_lt {t : ℚ} (h : t < 1/2) : easeInOutCubic t = 4*t*t*t := by
  unfold easeInOutCubic
  rw [if_pos h]

/-- Unfolding of the easing function on the second half. -/
lemma ease_eq_of_ge {t : ℚ} (h : ¬ t < 1/2) :
    easeInOutCubic t = 1 - (-2*t + 2)^3/2 := by
  unfold easeInOutCubic
  rw [if_neg h]

/-- On `[0, 1/2)` the easing value lies in `[0, 1/2)`. -/
lemma ease_first_half_bounds {t : ℚ} (h0 : 0 ≤ t) (h : t < 1/2) :
    0 ≤ easeInOutCubic t ∧ easeInOutCubic t < 1/2 := by
  rw [ease_eq_of_lt h]
  constructor
  · positivity
  · nlinarith [mul_nonneg h0 h0, mul_nonneg (mul_nonneg h0 h0) h0]

/-- On `[1/2, 1]` the easing value lies in `[1/2, 1]`. -/
lemma ease_second_half_bounds {t : ℚ} (h : ¬ t < 1/2) (h1 : t ≤ 1) :
    1/2 ≤ easeInOutCubic t ∧ easeInOutCubic t ≤ 1 := by
  rw [ease_eq_of_ge h]
  push_neg at h
  have hu0 : (0:ℚ) ≤ -2*t + 2 := by linarith
  have hu1 : -2*t + 2 ≤ 1 := by linarith
  constructor
  · nlinarith [mul_nonneg hu0 hu0, mul_nonneg (mul_nonneg hu0 hu0) hu0]
  · nlinarith [mul_nonneg hu0 hu0, mul_nonneg (mul_nonneg hu0 hu0) hu0]

/-- Strict monotonicity of the easing function on `[0, 1]`. -/
lemma ease_strictMono {t1 t2 : ℚ} (h0 : 0 ≤ t1) (h12 : t1 < t2) (h1 : t2 ≤ 1) :
    easeInOutCubic t1 < easeInOutCubic t2 := by
  by_cases ha : t1 < 1/2
  · by_cases hb : t2 < 1/2
    · rw [ease_eq_of_lt ha, ease_eq_of_lt hb]
      have ht2 : 0 < t2 := lt_of_le_of_lt h0 h12
      have hquad : 0 < t1*t1 + t1*t2 + t2*t2 := by
        nlinarith [mul_pos ht2 ht2, mul_nonneg h0 h0, mul_nonneg h0 ht2.le]
      nlinarith [mul_pos (sub_pos.2 h12) hquad]
    · have hl := (ease_first_half_bounds h0 ha).2
      have hr := (ease_second_half_bounds hb h1).1
      linarith
  · have hb : ¬ t2 < 1/2 := by push_neg at ha ⊢; linarith
    rw [ease_eq_of_ge ha, ease_eq_of_ge hb]
    push_neg at ha
    have hu2 : (0:ℚ) ≤ -2*t2 + 2 := by linarith
    have hu21 : -2*t2 + 2 < -2*t1 + 2 := by linarith
    have hu1 : (0:ℚ) < -2*t1 + 2 := lt_of_le_of_lt hu2 hu21
    have hquad : 0 < (-2*t2 + 2)*(-2*t2 + 2) + (-2*t2 + 2)*(-2*t1 + 2) +
        (-2*t1 + 2)*(-2*t1 + 2) := by
      nlinarith [mul_pos hu1 hu1, mul_nonneg hu2 hu2, mul_nonneg hu2 hu1.le]
    nlinarith [mul_pos (sub_pos.2 hu21) hquad]

/-- C9.  The easing function `easeInOutCubic` maps `[0,1]` to `[0,1]`
with `ease 0 = 0`, `ease 1 = 1` and `ease (1/2) = 1/2`; it is strictly
increasing on `[0,1]`; it accelerates (`ease t < t`) on `(0, 1/2)` and
decelerates (`ease t > t`) on `(1/2, 1)`. -/
theorem easeInOutCubic_spec :
    easeInOutCubic 0 = 0 ∧ easeInOutCubic 1 = 1 ∧
    easeInOutCubic (1/2) = 1/2 ∧
    (∀ t : ℚ, 0 ≤ t → t ≤ 1 → 0 ≤ easeInOutCubic t ∧ easeInOutCubic t ≤ 1) ∧
    (∀ t1 t2 : ℚ, 0 ≤ t1 → t1 < t2 → t2 ≤ 1 →
      easeInOutCubic t1 < easeInOutCubic t2) ∧
    (∀ t : ℚ, 0 < t → t < 1/2 → easeInOutCubic t < t) ∧
    (∀ t : ℚ, 1/2 < t → t < 1 → t < easeInOutCubic t) := by
  refine ⟨by norm_num [easeInOutCubic], by norm_num [easeInOutCubic],
    by norm_num [easeInOutCubic], ?_, fun t1 t2 h0 h12 h1 => ease_strictMono h0 h12 h1, ?_, ?_⟩
  · intro t h0 h1
    by_cases h : t < 1/2
    · have := ease_first_half_bounds h0 h
      exact ⟨this.1, by linarith [this.2]⟩
    · have := ease_second_half_bounds h h1
      exact ⟨by linarith [this.1], this.2⟩
  · intro t h0 h
    rw [ease_eq_of_lt h]
    nlinarith [mul_pos h0 h0]
  · intro t h0 h1
    have h : ¬ t < 1/2 := by linarith
    rw [ease_eq_of_ge h]
    have hu0 : (0:ℚ) < -2*t + 2 := by linarith
    have hu1 : -2*t + 2 < 1 := by linarith
    nlinarith [mul_pos hu0 hu0, mul_pos (mul_pos hu0 hu0) hu0]

/-- Witness for C9: the easing theorem instantiated at `t = 1/4` and
`t = 3/4`. -/
theorem easeInOutCubic_spec_witness :
    easeInOutCubic (1/4) < 1/4 ∧ (3/4 : ℚ) < easeInOutCubic (3/4) ∧
    easeInOutCubic (1/4) < easeInOutCubic (3/4) :=
  ⟨easeInOutCubic_spec.2.2.2.2.2.1 (1/4) (by norm_num) (by norm_num),
   easeInOutCubic_spec.2.2.2.2.2.2 (3/4) (by norm_num) (by norm_num),
   easeInOutCubic_spec.2.2.2.2.1 (1/4) (3/4) (by norm_num) (by norm_num) (by norm_num)⟩

/-- C1.  Zoom-to-point: for every zoom gesture that `handleZoom` applies
(wheel and pinch both route through it), with focal point `(cx, cy)`,
canvas size `(w, h)`, pan `(panX, panY)` and zoom `oldZoom`, letting
`worldX = (cx - w/2 - panX) / oldZoom` (symmetrically for Y), the new
state satisfies `cx - w/2 - panX' = worldX * newZoom` (symmetrically for
Y) — exactly in rational arithmetic, so in particular within
floating-point tolerance, including when the new zoom was clamped. -/
theorem zoom_to_point (st : GState) (factor cx cy w h : ℚ) (st' : GState)
    (eff : Eff) (happ : handleZoom st factor cx cy w h = (st', eff, true)) :
    cx - w/2 - st'.panX =
      ((cx - w/2 - st.panX) / st.currentZoom) * st'.currentZoom ∧
    cy - h/2 - st'.panY =
      ((cy - h/2 - st.panY) / st.currentZoom) * st'.currentZoom := by
  simp only [handleZoom] at happ
  split_ifs at happ with h1 h2
  · simp at happ
  · simp only [Prod.mk.injEq] at happ
    obtain ⟨hst, -, -⟩ := happ
    subst hst
    constructor <;> simp
  · simp at happ

/-- Witness for C1: a wheel-style zoom-in by factor 11/10 at focal point
(10, 10) on a 100×100 canvas from the identity transform moves the pan
to (4, 4), and the zoom-to-point equation holds there. -/
theorem zoom_to_point_witness :
    (10 - (100:ℚ)/2 - (4:ℚ) = ((10 - (100:ℚ)/2 - 0) / 1) * (11/10)) ∧
    (10 - (100:ℚ)/2 - (4:ℚ) = ((10 - (100:ℚ)/2 - 0) / 1) * (11/10)) := by
  have := zoom_to_point baseState (11/10) 10 10 100 100
    { baseState with panX := 4, panY := 4, currentZoom := 11/10 }
    { noEff with renders := 1 } (by with_unfolding_all decide)
  simpa [baseState] using this

/-- C4.  A zoom attempt whose proposed zoom crosses a limit the current
zoom is already at — proposed above `maxZoomLimit` while already at or
above it, or proposed below `minZoomLimit` while already at or below
it — leaves the whole state unchanged, schedules no render and reports
the zoom as not applied. -/
theorem zoom_rejected_at_bound (st : GState) (factor cx cy w h : ℚ)
    (hb : (st.currentZoom * factor > st.maxZoomLimit ∧
            st.currentZoom ≥ st.maxZoomLimit) ∨
          (st.currentZoom * factor < st.minZoomLimit ∧
            st.currentZoom ≤ st.minZoomLimit)) :
    handleZoom st factor cx cy w h = (st, noEff, false) := by
  by_cases h1 : st.zoomable
  · simp only [handleZoom, if_pos h1]
    rw [if_pos hb]
  · simp only [handleZoom, if_neg h1]

/-- A state trivially satisfies `ZoomShape` with itself. -/
lemma zoomShape_refl (st : GState) : ZoomShape st st :=
  ⟨rfl, rfl, Or.inl rfl⟩

/-- The clamp lands inside the zoom limits whenever they are ordered. -/
lemma clampZoom_mem {lo hi : ℚ} (hlohi : lo ≤ hi) (z : ℚ) :
    lo ≤ clampZoom lo hi z ∧ clampZoom lo hi z ≤ hi := by
  unfold clampZoom jmax jmin
  split_ifs <;> constructor <;> linarith

/-- A `ZoomShape` step out of a state satisfying the zoom invariant
lands in a state satisfying it. -/
lemma zoomInv_of_shape {st st' : GState} (hinv : ZoomInv st)
    (hsh : ZoomShape st st') : ZoomInv st' := by
  obtain ⟨hmin, hmax, hz⟩ := hsh
  obtain ⟨h1, h2⟩ := hinv
  rcases hz with hz | ⟨f, hz⟩
  · exact ⟨by rw [hmin, hz]; exact h1, by rw [hmax, hz]; exact h2⟩
  · have := clampZoom_mem (le_trans h1 h2) (st.currentZoom * f)
    exact ⟨by rw [hmin, hz]; exact this.1, by rw [hmax, hz]; exact this.2⟩

/-- Equality of the three zoom-related fields between two states. -/
def ZFieldsEq (st st' : GState) : Prop :=
  st'.currentZoom = st.currentZoom ∧ st'.minZoomLimit = st.minZoomLimit ∧
  st'.maxZoomLimit = st.maxZoomLimit

/-- Reflexivity of `ZFieldsEq`. -/
lemma zFieldsEq_refl (st : GState) : ZFieldsEq st st := ⟨rfl, rfl, rfl⟩

/-- Transitivity of `ZFieldsEq`. -/
lemma zFieldsEq_trans {a b c : GState} (h1 : ZFieldsEq a b)
    (h2 : ZFieldsEq b c) : ZFieldsEq a c :=
  ⟨h2.1.trans h1.1, h2.2.1.trans h1.2.1, h2.2.2.trans h1.2.2⟩

/-- A step that keeps the zoom fields is a `ZoomShape` step. -/
lemma zoomShape_of_fieldsEq {a b : GState} (h : ZFieldsEq a b) :
    ZoomShape a b :=
  ⟨h.2.1, h.2.2, Or.inl h.1⟩

/-- A `ZoomShape` step followed by a zoom-field-preserving step is a
`ZoomShape` step. -/
lemma zoomShape_fieldsEq_right {a b c : GState} (h1 : ZoomShape a b)
    (h2 : ZFieldsEq b c) : ZoomShape a c := by
  obtain ⟨hmin, hmax, hz⟩ := h1
  refine ⟨h2.2.1.trans hmin, h2.2.2.trans hmax, ?_⟩
  rcases hz with hz | ⟨f, hz⟩
  · exact Or.inl (h2.1.trans hz)
  · exact Or.inr ⟨f, h2.1.trans hz⟩

/-- `handlePanning` never writes the zoom fields. -/
lemma handlePanning_fields (st : GState) (x y : ℚ) :
    ZFieldsEq st (handlePanning st x y).1 := by
  unfold handlePanning
  split_ifs <;> exact ⟨rfl, rfl, rfl⟩

/-- `handleHoverDetection` never writes the zoom fields. -/
lemma handleHoverDetection_fields (st : GState) (x y : ℚ) :
    ZFieldsEq st (handleHoverDetection st x y).1 := by
  simp only [handleHoverDetection]
  split_ifs <;> exact ⟨rfl, rfl, rfl⟩

/-- `handleZoom` either leaves `currentZoom` alone or clamps the
proposed zoom; it never writes the limits. -/
lemma handleZoom_shape (st : GState) (f cx cy w h : ℚ) :
    ZoomShape st (handleZoom st f cx cy w h).1 := by
  by_cases h1 : st.zoomable
  · simp only [handleZoom, if_pos h1]
    split_ifs with h2
    · exact zoomShape_refl st
    · exact ⟨rfl, rfl, Or.inr ⟨f, rfl⟩⟩
  · simp only [handleZoom, if_neg h1]
    exact zoomShape_refl st

/-- Every successful mouse-up returns the input state with the dragging
flag cleared, and nothing else changed. -/
lemma handleMouseUp_state {st : GState} {e : EventPoint}
    {r : GState × Eff} (h : handleMouseUp st e = .ok r) :
    r.1 = { st with isDragging := false } := by
  simp only [handleMouseUp] at h
  rcases hmd : st.mouseDown with _ | down <;>
    rcases hcv : st.canvas with _ | rc <;>
    rcases hoc : st.onNodeClick <;>
    simp only [hmd, hcv, hoc] at h
  all_goals try (simp only [Except.ok.injEq] at h; rw [← h])
  split_ifs at h with h25
  · rcases hfn : findHoveredNode (e.clientX - rc.left - st.panX)
        (e.clientY - rc.top - st.panY) st.renderedNodes with _ | nid <;>
      simp only [hfn, Except.ok.injEq] at h <;> rw [← h]
  · simp only [Except.ok.injEq] at h
    rw [← h]

/-- Zoom-field shape of a successful mouse-move step. -/
lemma handleMouseMove_ok_shape {st st' : GState} {e : EventPoint} {eff : Eff}
    (h : handleMouseMove st e = .ok (st', eff)) : ZoomShape st st' := by
  simp only [handleMouseMove] at h
  split_ifs at h with h1
  · simp only [Except.ok.injEq, Prod.mk.injEq] at h
    obtain ⟨rfl, -⟩ := h
    exact zoomShape_refl st
  · cases hg : getEventCoordinates e st.canvas with
    | error u => simp [hg] at h
    | ok coords =>
        simp only [hg] at h
        split_ifs at h with h2 <;>
          simp only [Except.ok.injEq, Prod.mk.injEq] at h <;>
          obtain ⟨rfl, -⟩ := h
        · exact zoomShape_of_fieldsEq
            (zFieldsEq_trans (handlePanning_fields st coords.x coords.y)
              ⟨rfl, rfl, rfl⟩)
        · exact zoomShape_of_fieldsEq
            (zFieldsEq_trans
              (zFieldsEq_trans (handlePanning_fields st coords.x coords.y)
                ⟨rfl, rfl, rfl⟩)
              (handleHoverDetection_fields _ coords.x coords.y))

/-- Zoom-field shape of a successful mouse-down step. -/
lemma handleMouseDown_ok_shape {st st' : GState} {e : EventPoint} {eff : Eff}
    (h : handleMouseDown st e = .ok (st', eff)) : ZoomShape st st' := by
  simp only [handleMouseDown] at h
  cases hg : getEventCoordinates e st.canvas with
  | error u => simp [hg] at h
  | ok coords =>
      simp only [hg] at h
      split_ifs at h <;> simp only [Except.ok.injEq, Prod.mk.injEq] at h <;>
        obtain ⟨rfl, -⟩ := h <;> exact zoomShape_of_fieldsEq ⟨rfl, rfl, rfl⟩

/-- Zoom-field shape of a successful wheel step. -/
lemma handleWheel_ok_shape {st st' : GState} {e : WheelEvent} {w h : ℚ}
    {eff : Eff} (hok : handleWheel st e w h = .ok (st', eff)) :
    ZoomShape st st' := by
  simp only [handleWheel] at hok
  split_ifs at hok with h1
  · simp only [Except.ok.injEq, Prod.mk.injEq] at hok
    obtain ⟨rfl, -⟩ := hok
    exact zoomShape_refl st
  all_goals
    cases hg : getEventCoordinates ⟨e.clientX, e.clientY⟩ st.canvas with
    | error u => simp [hg] at hok
    | ok coords =>
        simp only [hg, Except.ok.injEq, Prod.mk.injEq] at hok
        obtain ⟨rfl, -⟩ := hok
        exact handleZoom_shape st _ coords.x coords.y w h

/-- Zoom-field shape of a successful touch-start step. -/
lemma handleTouchStart_ok_shape {sq : ℚ → ℚ} {st st' : GState}
    {e : TouchEvent} {eff : Eff}
    (h : handleTouchStart sq st e = .ok (st', eff)) : ZoomShape st st' := by
  simp only [handleTouchStart] at h
  rcases ht : e.touches with _ | ⟨t1, _ | ⟨t2, _ | ⟨t3, rest⟩⟩⟩ <;>
    simp only [ht] at h
  · simp only [Except.ok.injEq, Prod.mk.injEq] at h
    obtain ⟨rfl, -⟩ := h
    exact zoomShape_of_fieldsEq ⟨rfl, rfl, rfl⟩
  · cases hg : getEventCoordinates t1 st.canvas with
    | error u => simp [hg] at h
    | ok coords =>
        simp only [hg, Except.ok.injEq, Prod.mk.injEq] at h
        obtain ⟨rfl, -⟩ := h
        refine zoomShape_of_fieldsEq (zFieldsEq_trans ?_
          (handleHoverDetection_fields _ coords.x coords.y))
        split_ifs <;> exact ⟨rfl, rfl, rfl⟩
  · split_ifs at h with hz
    · cases hg1 : getEventCoordinates t1 st.canvas with
      | error u => simp [hg1] at h
      | ok c1 =>
          cases hg2 : getEventCoordinates t2 st.canvas with
          | error u => simp [hg1, hg2] at h
          | ok c2 =>
              simp only [hg1, hg2, Except.ok.injEq, Prod.mk.injEq] at h
              obtain ⟨rfl, -⟩ := h
              exact zoomShape_of_fieldsEq ⟨rfl, rfl, rfl⟩
    · simp only [Except.ok.injEq, Prod.mk.injEq] at h
      obtain ⟨rfl, -⟩ := h
      exact zoomShape_of_fieldsEq ⟨rfl, rfl, rfl⟩
  · simp only [Except.ok.injEq, Prod.mk.injEq] at h
    obtain ⟨rfl, -⟩ := h
    exact zoomShape_of_fieldsEq ⟨rfl, rfl, rfl⟩

/-- Zoom-field shape of a successful touch-move step. -/
lemma handleTouchMove_ok_shape {sq : ℚ → ℚ} {st st' : GState}
    {e : TouchEvent} {w h : ℚ} {eff : Eff}
    (hok : handleTouchMove sq st e w h = .ok (st', eff)) :
    ZoomShape st st' := by
  simp only [handleTouchMove] at hok
  rcases ht : e.touches with _ | ⟨t1, _ | ⟨t2, _ | ⟨t3, rest⟩⟩⟩ <;>
    simp only [ht] at hok
  · simp only [Except.ok.injEq, Prod.mk.injEq] at hok
    obtain ⟨rfl, -⟩ := hok
    exact zoomShape_refl st
  · split_ifs at hok with hd
    · cases hg : getEventCoordinates t1 st.canvas with
      | error u => simp [hg] at hok
      | ok coords =>
          simp only [hg, Except.ok.injEq] at hok
          have hst : (handlePanning st coords.x coords.y).1 = st' :=
            congrArg Prod.fst hok
          rw [← hst]
          exact zoomShape_of_fieldsEq
            (handlePanning_fields st coords.x coords.y)
    · simp only [Except.ok.injEq, Prod.mk.injEq] at hok
      obtain ⟨rfl, -⟩ := hok
      exact zoomShape_refl st
  · split_ifs at hok with hz hpos
    · cases hg1 : getEventCoordinates t1 st.canvas with
      | error u => simp [hg1] at hok
      | ok c1 =>
          cases hg2 : getEventCoordinates t2 st.canvas with
          | error u => simp [hg1, hg2] at hok
          | ok c2 =>
              simp only [hg1, hg2, Except.ok.injEq, Prod.mk.injEq] at hok
              obtain ⟨rfl, -⟩ := hok
              exact zoomShape_fieldsEq_right
                (handleZoom_shape st _ _ _ w h) ⟨rfl, rfl, rfl⟩
    · cases hg1 : getEventCoordinates t1 st.canvas with
      | error u => simp [hg1] at hok
      | ok c1 =>
          cases hg2 : getEventCoordinates t2 st.canvas with
          | error u => simp [hg1, hg2] at hok
          | ok c2 =>
              simp only [hg1, hg2, Except.ok.injEq, Prod.mk.injEq] at hok
              obtain ⟨rfl, -⟩ := hok
              exact zoomShape_of_fieldsEq ⟨rfl, rfl, rfl⟩
    · simp only [Except.ok.injEq, Prod.mk.injEq] at hok
      obtain ⟨rfl, -⟩ := hok
      exact zoomShape_refl st
  · simp only [Except.ok.injEq, Prod.mk.injEq] at hok
    obtain ⟨rfl, -⟩ := hok
    exact zoomShape_refl st

/-- Zoom-field shape of a successful touch-end step. -/
lemma handleTouchEnd_ok_shape {st st' : GState} {e : TouchEvent} {eff : Eff}
    (h : handleTouchEnd st e = .ok (st', eff)) : ZoomShape st st' := by
  simp only [handleTouchEnd] at h
  rcases ht : e.touches with _ | ⟨t1, _ | ⟨t2, _ | ⟨t3, rest⟩⟩⟩ <;>
    simp only [ht] at h
  · rcases hct : e.changedTouches with _ | ⟨t, _ | _⟩ <;>
      rcases hts : st.touchStart with _ | start <;>
      rcases hoc : st.onNodeClick <;>
      simp only [hct, hts, hoc, Except.ok.injEq, Prod.mk.injEq] at h
    all_goals
      try (obtain ⟨rfl, -⟩ := h; exact zoomShape_of_fieldsEq ⟨rfl, rfl, rfl⟩)
    cases hg : getEventCoordinates t st.canvas with
    | error u => simp [hg] at h
    | ok coords =>
        simp only [hg] at h
        split_ifs at h with h25
        · rcases hfn : findHoveredNode (coords.x - st.panX)
              (coords.y - st.panY) st.renderedNodes with _ | nid <;>
            simp only [hfn, Except.ok.injEq, Prod.mk.injEq] at h <;>
            obtain ⟨rfl, -⟩ := h <;>
            exact zoomShape_of_fieldsEq ⟨rfl, rfl, rfl⟩
        · simp only [Except.ok.injEq, Prod.mk.injEq] at h
          obtain ⟨rfl, -⟩ := h
          exact zoomShape_of_fieldsEq ⟨rfl, rfl, rfl⟩
  · split_ifs at h with hp
    · cases hg : getEventCoordinates t1 st.canvas with
      | error u => simp [hg] at h
      | ok coords =>
          simp only [hg, Except.ok.injEq, Prod.mk.injEq] at h
          obtain ⟨rfl, -⟩ := h
          exact zoomShape_of_fieldsEq ⟨rfl, rfl, rfl⟩
    · simp only [Except.ok.injEq, Prod.mk.injEq] at h
      obtain ⟨rfl, -⟩ := h
      exact zoomShape_of_fieldsEq ⟨rfl, rfl, rfl⟩
  · simp only [Except.ok.injEq, Prod.mk.injEq] at h
    obtain ⟨rfl, -⟩ := h
    exact zoomShape_of_fieldsEq ⟨rfl, rfl, rfl⟩
  · simp only [Except.ok.injEq, Prod.mk.injEq] at h
    obtain ⟨rfl, -⟩ := h
    exact zoomShape_of_fieldsEq ⟨rfl, rfl, rfl⟩

/-- Zoom-field shape of any successful gesture step. -/
lemma step_ok_shape {sq : ℚ → ℚ} {st st' : GState} {ev : GEvent} {eff : Eff}
    (h : step sq st ev = .ok (st', eff)) : ZoomShape st st' := by
  cases ev with
  | mouseMove e => exact handleMouseMove_ok_shape h
  | mouseDown e => exact handleMouseDown_ok_shape h
  | mouseUp e =>
      have := handleMouseUp_state h
      have hst : st' = { st with isDragging := false } := this
      rw [hst]
      exact zoomShape_of_fieldsEq ⟨rfl, rfl, rfl⟩
  | mouseLeave =>
      simp only [handleMouseLeave, step] at h
      split_ifs at h <;> simp only [Except.ok.injEq, Prod.mk.injEq] at h <;>
        obtain ⟨rfl, -⟩ := h <;> exact zoomShape_of_fieldsEq ⟨rfl, rfl, rfl⟩
  | wheel e w hh => exact handleWheel_ok_shape h
  | touchStart e => exact handleTouchStart_ok_shape h
  | touchMove e w hh => exact handleTouchMove_ok_shape h
  | touchEnd e => exact handleTouchEnd_ok_shape h

/-- A successful gesture step preserves the zoom-bounds invariant. -/
lemma step_preserves_zoomInv {sq : ℚ → ℚ} {st st' : GState} {ev : GEvent}
    {eff : Eff} (hinv : ZoomInv st) (h : step sq st ev = .ok (st', eff)) :
    ZoomInv st' :=
  zoomInv_of_shape hinv (step_ok_shape h)

/-- A successful event-sequence run preserves the zoom-bounds
invariant. -/
lemma runEvents_preserves_zoomInv {sq : ℚ → ℚ} {evs : List GEvent} :
    ∀ {st st' : GState}, ZoomInv st → runEvents sq st evs = .ok st' →
      ZoomInv st' := by
  induction evs with
  | nil =>
      intro st st' hinv h
      simp only [runEvents, Except.ok.injEq] at h
      exact h ▸ hinv
  | cons e rest ih =>
      intro st st' hinv h
      simp only [runEvents] at h
      cases hs : step sq st e with
      | error u => rw [hs] at h; simp at h
      | ok p =>
          rw [hs] at h
          exact ih (step_preserves_zoomInv hinv (by rw [hs])) h

/-- C5.  For every sequence of gesture operations starting from a state
with `minZoomLimit ≤ currentZoom ≤ maxZoomLimit`, the invariant holds
after every successfully completed operation; any applied zoom sets
`currentZoom` to the proposed zoom clamped into the limits, and every
other successful operation leaves `currentZoom` unchanged (it is either
untouched or set to a clamp). -/
theorem zoom_bounds_invariant :
    (∀ (sq : ℚ → ℚ) (st : GState) (evs : List GEvent) (st' : GState),
      st.minZoomLimit ≤ st.currentZoom → st.currentZoom ≤ st.maxZoomLimit →
      runEvents sq st evs = .ok st' →
      st'.minZoomLimit ≤ st'.currentZoom ∧
        st'.currentZoom ≤ st'.maxZoomLimit) ∧
    (∀ (st : GState) (f cx cy w h : ℚ) (st' : GState) (eff : Eff),
      handleZoom st f cx cy w h = (st', eff, true) →
      st'.currentZoom =
        clampZoom st.minZoomLimit st.maxZoomLimit (st.currentZoom * f)) ∧
    (∀ (sq : ℚ → ℚ) (st : GState) (ev : GEvent) (st' : GState) (eff : Eff),
      step sq st ev = .ok (st', eff) →
      st'.currentZoom = st.currentZoom ∨
        ∃ f, st'.currentZoom =
          clampZoom st.minZoomLimit st.maxZoomLimit (st.currentZoom * f)) := by
  refine ⟨?_, ?_, ?_⟩
  · intro sq st evs st' h1 h2 hrun
    exact runEvents_preserves_zoomInv ⟨h1, h2⟩ hrun
  · intro st f cx cy w h st' eff happ
    simp only [handleZoom] at happ
    split_ifs at happ with h1 h2
    · simp at happ
    · simp only [Prod.mk.injEq] at happ
      obtain ⟨hst, -, -⟩ := happ
      subst hst
      rfl
    · simp at happ
  · intro sq st ev st' eff hstep
    exact (step_ok_shape hstep).2.2

/-- Witness for C5: the invariant theorem instantiated on the baseline
state and a one-event run. -/
theorem zoom_bounds_invariant_witness :
    baseState.minZoomLimit ≤ baseState.currentZoom ∧
    baseState.currentZoom ≤ baseState.maxZoomLimit :=
  zoom_bounds_invariant.1 (fun q => q) baseState [GEvent.mouseLeave]
    baseState (by norm_num [baseState]) (by norm_num [baseState])
    (by with_unfolding_all rfl)

/-- Witness for C4: zooming in by factor 2 from `currentZoom = 2` with
`maxZoomLimit = 2` is rejected without touching the state. -/
theorem zoom_rejected_at_bound_witness :
    ((2:ℚ) * 2 > 2 ∧ (2:ℚ) ≥ 2) ∧
    handleZoom { baseState with currentZoom := 2 } 2 0 0 100 100 =
      ({ baseState with currentZoom := 2 }, noEff, false) :=
  ⟨by norm_num,
   zoom_rejected_at_bound { baseState with currentZoom := 2 } 2 0 0 100 100
     (Or.inl (by norm_num [baseState]))⟩

/-- Effect record of a successful mouse-up with a recorded down
position, a present canvas and a registered click callback: the click
branch runs, hit-testing with the exact finder alone under the strict
25-unit squared-displacement threshold. -/
lemma handleMouseUp_clicks {st : GState} {rc : Rect} {down : Coords}
    {e : EventPoint} (hcv : st.canvas = some rc)
    (hmd : st.mouseDown = some down) (hoc : st.onNodeClick = true)
    {st' : GState} {eff : Eff} (h : handleMouseUp st e = .ok (st', eff)) :
    eff =
      if (e.clientX - rc.left - down.x) * (e.clientX - rc.left - down.x) +
          (e.clientY - rc.top - down.y) * (e.clientY - rc.top - down.y) <
          25 then
        { noEff with
            clicks := (findHoveredNode (e.clientX - rc.left - st.panX)
              (e.clientY - rc.top - st.panY) st.renderedNodes).toList
            hitTests := 1 }
      else noEff := by
  simp only [handleMouseUp, hmd, hcv, hoc] at h
  split_ifs at h with h25
  · rcases hfn : findHoveredNode (e.clientX - rc.left - st.panX)
        (e.clientY - rc.top - st.panY) st.renderedNodes with _ | nid <;>
      simp only [hfn, Except.ok.injEq, Prod.mk.injEq] at h <;>
      obtain ⟨-, rfl⟩ := h <;> rw [if_pos h25] <;> rfl
  · obtain ⟨-, rfl⟩ := (by simpa only [Except.ok.injEq, Prod.mk.injEq]
      using h : _ ∧ noEff = eff)
    rw [if_neg h25]

/-- Clicks of a successful mouse-up always come from the exact hit-test
alone; the proximity index is never consulted. -/
lemma handleMouseUp_clicks_exact {st : GState} {e : EventPoint}
    {st' : GState} {eff : Eff} (h : handleMouseUp st e = .ok (st', eff)) :
    eff.clicks = [] ∨
      ∃ rc nid, st.canvas = some rc ∧
        findHoveredNode (e.clientX - rc.left - st.panX)
          (e.clientY - rc.top - st.panY) st.renderedNodes = some nid ∧
        eff.clicks = [nid] := by
  simp only [handleMouseUp] at h
  rcases hmd : st.mouseDown with _ | down <;>
    rcases hcv : st.canvas with _ | rc <;>
    rcases hoc : st.onNodeClick <;>
    simp only [hmd, hcv, hoc, Except.ok.injEq, Prod.mk.injEq] at h
  all_goals try (obtain ⟨-, rfl⟩ := h; exact Or.inl rfl)
  split_ifs at h with h25
  · rcases hfn : findHoveredNode (e.clientX - rc.left - st.panX)
        (e.clientY - rc.top - st.panY) st.renderedNodes with _ | nid <;>
      simp only [hfn, Except.ok.injEq, Prod.mk.injEq] at h <;>
      obtain ⟨-, rfl⟩ := h
    · exact Or.inl rfl
    · exact Or.inr ⟨rc, nid, rfl, hfn, rfl⟩
  · obtain ⟨-, rfl⟩ := h
    exact Or.inl rfl

/-- Clicks of a successful touch-end always come from the exact
hit-test alone; the proximity index is never consulted. -/
lemma handleTouchEnd_clicks_exact {st : GState} {e : TouchEvent}
    {st' : GState} {eff : Eff} (h : handleTouchEnd st e = .ok (st', eff)) :
    eff.clicks = [] ∨
      ∃ rc t nid, st.canvas = some rc ∧ e.changedTouches = [t] ∧
        findHoveredNode (t.clientX - rc.left - st.panX)
          (t.clientY - rc.top - st.panY) st.renderedNodes = some nid ∧
        eff.clicks = [nid] := by
  simp only [handleTouchEnd] at h
  rcases ht : e.touches with _ | ⟨t1, _ | ⟨t2, _ | ⟨t3, rest⟩⟩⟩ <;>
    simp only [ht] at h
  · rcases hct : e.changedTouches with _ | ⟨t, _ | _⟩ <;>
      rcases hts : st.touchStart with _ | start <;>
      rcases hoc : st.onNodeClick <;>
      simp only [hct, hts, hoc, Except.ok.injEq, Prod.mk.injEq] at h
    all_goals try (obtain ⟨-, rfl⟩ := h; exact Or.inl rfl)
    cases hg : getEventCoordinates t st.canvas with
    | error u => simp [hg] at h
    | ok coords =>
        rcases hcv : st.canvas with _ | rc
        · rw [hcv] at hg; exact absurd hg (by simp [getEventCoordinates])
        · rw [hcv] at hg
          simp only [getEventCoordinates, Except.ok.injEq] at hg
          subst hg
          simp only [hcv, getEventCoordinates] at h
          split_ifs at h with h25
          · rcases hfn : findHoveredNode (t.clientX - rc.left - st.panX)
                (t.clientY - rc.top - st.panY) st.renderedNodes with _ | nid <;>
              simp only [hfn, Except.ok.injEq, Prod.mk.injEq] at h <;>
              obtain ⟨-, rfl⟩ := h
            · exact Or.inl rfl
            · exact Or.inr ⟨rc, t, nid, rfl, rfl, hfn, rfl⟩
          · obtain ⟨-, rfl⟩ := h
            exact Or.inl rfl
  · split_ifs at h with hp
    · cases hg : getEventCoordinates t1 st.canvas with
      | error u => simp [hg] at h
      | ok coords =>
          simp only [hg, Except.ok.injEq, Prod.mk.injEq] at h
          obtain ⟨-, rfl⟩ := h
          exact Or.inl rfl
    · simp only [Except.ok.injEq, Prod.mk.injEq] at h
      obtain ⟨-, rfl⟩ := h
      exact Or.inl rfl
  · simp only [Except.ok.injEq, Prod.mk.injEq] at h
    obtain ⟨-, rfl⟩ := h
    exact Or.inl rfl
  · simp only [Except.ok.injEq, Prod.mk.injEq] at h
    obtain ⟨-, rfl⟩ := h
    exact Or.inl rfl

/-- C2 (amended).  Hover resolution — on pointer move and single-touch
start, both through `handleHoverDetection` — resolves in the composite
order `resolveHover`: exact hit first; only if that is null and a
proximity index exists, the approximate leaf hit; if still null, no
node is hit.  An exact hit is never overridden by the proximity
fallback.  Click/tap resolution on pointer/touch up, however, uses the
exact hit only and never consults the proximity index. -/
theorem hit_resolution_order :
    (∀ (st : GState) (x y : ℚ), st.renderedNodes ≠ [] →
      ((handleHoverDetection st x y).1).hoveredNodeId =
        resolveHover st (x - st.panX) (y - st.panY)) ∧
    (∀ (st : GState) (tx ty : ℚ) (nid : String),
      findHoveredNode tx ty st.renderedNodes = some nid →
      resolveHover st tx ty = some nid) ∧
    (∀ (st : GState) (e : EventPoint) (st' : GState) (eff : Eff),
      handleMouseUp st e = .ok (st', eff) →
      eff.clicks = [] ∨
        ∃ rc nid, st.canvas = some rc ∧
          findHoveredNode (e.clientX - rc.left - st.panX)
            (e.clientY - rc.top - st.panY) st.renderedNodes = some nid ∧
          eff.clicks = [nid]) ∧
    (∀ (st : GState) (e : TouchEvent) (st' : GState) (eff : Eff),
      handleTouchEnd st e = .ok (st', eff) →
      eff.clicks = [] ∨
        ∃ rc t nid, st.canvas = some rc ∧ e.changedTouches = [t] ∧
          findHoveredNode (t.clientX - rc.left - st.panX)
            (t.clientY - rc.top - st.panY) st.renderedNodes = some nid ∧
          eff.clicks = [nid]) := by
  refine ⟨?_, ?_, ?_, ?_⟩
  · intro st x y hne
    simp only [handleHoverDetection]
    rw [if_neg (by simpa [List.isEmpty_iff] using hne)]
    split_ifs with hch
    · rfl
    · push_neg at hch
      exact hch.symm
  · intro st tx ty nid hfn
    simp only [resolveHover, hfn]
  · intro st e st' eff h
    exact handleMouseUp_clicks_exact h
  · intro st e st' eff h
    exact handleTouchEnd_clicks_exact h

/-- Witness for C2: at the origin of `hoverFallbackState` the exact hit
misses, so hover resolution falls back to the nearest proximity leaf
`l1`. -/
theorem hit_resolution_order_witness :
    ((handleHoverDetection hoverFallbackState 0 0).1).hoveredNodeId =
      resolveHover hoverFallbackState (0 - hoverFallbackState.panX)
        (0 - hoverFallbackState.panY) :=
  hit_resolution_order.1 hoverFallbackState 0 0
    (by with_unfolding_all decide)

set_option maxRecDepth 4000 in
/-- Counterexample for C2 as stated: in `hoverFallbackState` a tap at
the origin has zero displacement (< 25), a click callback is
registered, the exact hit misses, a proximity index exists and the
composite order resolves to leaf `l1` — so under the claim the click
callback would be invoked with `l1` — yet the mouse-up handler invokes
no callback at all: its click resolution never consults the proximity
index. -/
theorem hit_resolution_order_counterexample :
    hoverFallbackState.onNodeClick = true ∧
    hoverFallbackState.mouseDown = some ⟨0, 0⟩ ∧
    findHoveredNode 0 0 hoverFallbackState.renderedNodes = none ∧
    resolveHover hoverFallbackState 0 0 = some "l1" ∧
    handleMouseUp hoverFallbackState ⟨0, 0⟩ =
      .ok ({ hoverFallbackState with isDragging := false },
        { noEff with hitTests := 1 }) := by
  with_unfolding_all decide

/-- A successful mouse-down records the canvas-local down position and
leaves canvas, callback, pan, and rendered nodes untouched. -/
lemma handleMouseDown_fields {st : GState} {e : EventPoint} {rc : Rect}
    (hcv : st.canvas = some rc) {r : GState × Eff}
    (h : handleMouseDown st e = .ok r) :
    r.1.canvas = st.canvas ∧ r.1.onNodeClick = st.onNodeClick ∧
    r.1.mouseDown = some ⟨e.clientX - rc.left, e.clientY - rc.top⟩ ∧
    r.1.panX = st.panX ∧ r.1.panY = st.panY ∧
    r.1.renderedNodes = st.renderedNodes := by
  simp only [handleMouseDown, hcv, getEventCoordinates] at h
  split_ifs at h <;> (simp only [Except.ok.injEq] at h; rw [← h]) <;>
    exact ⟨hcv.symm, rfl, rfl, rfl, rfl, rfl⟩

/-- C3.  For every pointer-down at `(x0, y0)` followed by a pointer-up
at `(x1, y1)` with a click callback registered: when
`(x1-x0)² + (y1-y0)² < 25` the click callback receives exactly the
nodes the exact hit-test of the transformed up-coordinate resolves to
(the hit node's id when it hits, nothing when it misses); when the
squared displacement is `≥ 25` the callback is not invoked.  The
comparison is strict-less-than against 25. -/
theorem click_threshold (st : GState) (rc : Rect) (e0 e1 : EventPoint)
    (hcv : st.canvas = some rc) (hcb : st.onNodeClick = true)
    (st1 : GState) (eff1 : Eff)
    (hdown : handleMouseDown st e0 = .ok (st1, eff1))
    (st2 : GState) (eff2 : Eff)
    (hup : handleMouseUp st1 e1 = .ok (st2, eff2)) :
    ((e1.clientX - e0.clientX) * (e1.clientX - e0.clientX) +
        (e1.clientY - e0.clientY) * (e1.clientY - e0.clientY) < 25 →
      eff2.clicks = (findHoveredNode (e1.clientX - rc.left - st.panX)
        (e1.clientY - rc.top - st.panY) st.renderedNodes).toList) ∧
    (25 ≤ (e1.clientX - e0.clientX) * (e1.clientX - e0.clientX) +
        (e1.clientY - e0.clientY) * (e1.clientY - e0.clientY) →
      eff2.clicks = []) := by
  obtain ⟨hc1, hc2, hc3, hp1, hp2, hr1⟩ :=
    handleMouseDown_fields hcv (r := (st1, eff1)) hdown
  have heff := handleMouseUp_clicks (hc1.trans hcv) hc3
    (hc2.trans hcb) hup
  rw [hp1, hp2, hr1] at heff
  have hbeq : (e1.clientX - rc.left -
        (⟨e0.clientX - rc.left, e0.clientY - rc.top⟩ : Coords).x) *
      (e1.clientX - rc.left -
        (⟨e0.clientX - rc.left, e0.clientY - rc.top⟩ : Coords).x) +
      (e1.clientY - rc.top -
        (⟨e0.clientX - rc.left, e0.clientY - rc.top⟩ : Coords).y) *
      (e1.clientY - rc.top -
        (⟨e0.clientX - rc.left, e0.clientY - rc.top⟩ : Coords).y) =
      (e1.clientX - e0.clientX) * (e1.clientX - e0.clientX) +
      (e1.clientY - e0.clientY) * (e1.clientY - e0.clientY) := by
    show (e1.clientX - rc.left - (e0.clientX - rc.left)) *
        (e1.clientX - rc.left - (e0.clientX - rc.left)) +
        (e1.clientY - rc.top - (e0.clientY - rc.top)) *
        (e1.clientY - rc.top - (e0.clientY - rc.top)) = _
    ring
  rw [hbeq] at heff
  constructor
  · intro h25
    rw [if_pos h25] at heff
    rw [heff]
  · intro h25
    rw [if_neg (by linarith)] at heff
    rw [heff]
    rfl

/-- Witness for C3: on `clickState`, pointer-down at client (1, 0) and
pointer-up at (0, 0) — squared displacement 1 < 25 — clicks the node
`n0` whose circle contains the origin. -/
theorem click_threshold_witness :
    ({ noEff with clicks := ["n0"], hitTests := 1 } : Eff).clicks =
      (findHoveredNode ((0:ℚ) - 0 - 0) ((0:ℚ) - 0 - 0)
        clickState.renderedNodes).toList :=
  (click_threshold clickState ⟨0, 0⟩ ⟨1, 0⟩ ⟨0, 0⟩ rfl rfl
    { clickState with
        mouseDown := some ⟨1, 0⟩
        isDragging := true
        lastMouseX := 1
        lastMouseY := 0 } noEff (by with_unfolding_all decide)
    { clickState with
        mouseDown := some ⟨1, 0⟩
        isDragging := false
        lastMouseX := 1
        lastMouseY := 0 } { noEff with clicks := ["n0"], hitTests := 1 }
    (by with_unfolding_all decide)).1 (by norm_num)

/-- C7 (amended).  When the canvas handle is missing, mouse-move and
wheel are guarded no-ops, mouse-up completes without error (only
clearing the drag flag) and mouse-leave never throws; but mouse-down,
single-touch touch-start, dragging single-touch touch-move and
single-touch pannable touch-end read the canvas rectangle
unconditionally and throw. -/
theorem missing_canvas_behavior :
    (∀ (st : GState) (e : EventPoint), st.canvas = none →
      handleMouseMove st e = .ok (st, noEff)) ∧
    (∀ (st : GState) (e : WheelEvent) (w h : ℚ), st.canvas = none →
      handleWheel st e w h = .ok (st, noEff)) ∧
    (∀ (st : GState) (e : EventPoint), st.canvas = none →
      handleMouseUp st e = .ok ({ st with isDragging := false }, noEff)) ∧
    (∀ st : GState, ∃ r, handleMouseLeave st = .ok r) ∧
    (∀ (st : GState) (e : EventPoint), st.canvas = none →
      handleMouseDown st e = .error ()) ∧
    (∀ (sq : ℚ → ℚ) (st : GState) (e : TouchEvent) (t : EventPoint),
      st.canvas = none → e.touches = [t] →
      handleTouchStart sq st e = .error ()) ∧
    (∀ (sq : ℚ → ℚ) (st : GState) (e : TouchEvent) (t : EventPoint)
      (w h : ℚ), st.canvas = none → e.touches = [t] →
      st.isDragging = true → st.pannable = true →
      handleTouchMove sq st e w h = .error ()) ∧
    (∀ (st : GState) (e : TouchEvent) (t : EventPoint),
      st.canvas = none → e.touches = [t] → st.pannable = true →
      handleTouchEnd st e = .error ()) := by
  refine ⟨?_, ?_, ?_, ?_, ?_, ?_, ?_, ?_⟩
  · intro st e hcv
    simp [handleMouseMove, hcv]
  · intro st e w h hcv
    simp [handleWheel, hcv]
  · intro st e hcv
    rcases hmd : st.mouseDown with _ | d <;>
      rcases hoc : st.onNodeClick <;>
      simp [handleMouseUp, hmd, hcv, hoc]
  · intro st
    simp only [handleMouseLeave]
    split_ifs <;> exact ⟨_, rfl⟩
  · intro st e hcv
    simp [handleMouseDown, hcv, getEventCoordinates]
  · intro sq st e t hcv ht
    simp [handleTouchStart, ht, hcv, getEventCoordinates]
  · intro sq st e t w h hcv ht hd hp
    simp [handleTouchMove, ht, hd, hp, hcv, getEventCoordinates]
  · intro st e t hcv ht hp
    rcases hct : e.changedTouches with _ | ⟨t0, rest⟩ <;>
      simp [handleTouchEnd, ht, hct, hp, hcv, getEventCoordinates]

/-- Witness for C7: on the canvas-less state, mouse-move is a no-op. -/
theorem missing_canvas_behavior_witness :
    handleMouseMove noCanvasState ⟨0, 0⟩ = .ok (noCanvasState, noEff) :=
  missing_canvas_behavior.1 noCanvasState ⟨0, 0⟩ rfl

/-- Counterexample for C7 as stated: a mouse-down with the canvas
handle missing is not a no-op — it throws (the unguarded
`getBoundingClientRect` dereference). -/
theorem missing_canvas_behavior_counterexample :
    handleMouseDown noCanvasState ⟨0, 0⟩ = .error () := by
  with_unfolding_all decide

/-- Every successful touch-end performed without a registered click
callback produces no effects at all. -/
lemma handleTouchEnd_noEff_of_no_callback {st : GState} {e : TouchEvent}
    (hoc : st.onNodeClick = false) {st' : GState} {eff : Eff}
    (h : handleTouchEnd st e = .ok (st', eff)) : eff = noEff := by
  simp only [handleTouchEnd] at h
  rcases ht : e.touches with _ | ⟨t1, _ | ⟨t2, _ | ⟨t3, rest⟩⟩⟩ <;>
    simp only [ht] at h
  · rcases hct : e.changedTouches with _ | ⟨t, _ | _⟩ <;>
      rcases hts : st.touchStart with _ | start <;>
      simp only [hct, hts, hoc, Except.ok.injEq, Prod.mk.injEq] at h <;>
      (obtain ⟨-, rfl⟩ := h; rfl)
  · split_ifs at h with hp
    · cases hg : getEventCoordinates t1 st.canvas with
      | error u => simp [hg] at h
      | ok coords =>
          simp only [hg, Except.ok.injEq, Prod.mk.injEq] at h
          obtain ⟨-, rfl⟩ := h
          rfl
    · simp only [Except.ok.injEq, Prod.mk.injEq] at h
      obtain ⟨-, rfl⟩ := h
      rfl
  · simp only [Except.ok.injEq, Prod.mk.injEq] at h
    obtain ⟨-, rfl⟩ := h
    rfl
  · simp only [Except.ok.injEq, Prod.mk.injEq] at h
    obtain ⟨-, rfl⟩ := h
    rfl

/-- C8 (amended).  When no click callback is registered, the pointer-up
click-detection block is skipped entirely: the hit-test does not run
(zero exact hit-test invocations) and no callback is invoked — for the
mouse-up handler and for the tap branch of the touch-end handler
alike. -/
theorem no_callback_skips_hit_test :
    (∀ (st : GState) (e : EventPoint), st.onNodeClick = false →
      handleMouseUp st e = .ok ({ st with isDragging := false }, noEff)) ∧
    (∀ (st : GState) (e : TouchEvent) (st' : GState) (eff : Eff),
      st.onNodeClick = false → handleTouchEnd st e = .ok (st', eff) →
      eff.hitTests = 0 ∧ eff.clicks = []) := by
  constructor
  · intro st e hoc
    rcases hmd : st.mouseDown with _ | d <;>
      rcases hcv : st.canvas with _ | rc <;>
      simp [handleMouseUp, hmd, hcv, hoc]
  · intro st e st' eff hoc h
    rw [handleTouchEnd_noEff_of_no_callback hoc h]
    exact ⟨rfl, rfl⟩

/-- Witness for C8: on `noCallbackState` — no callback registered — a
pointer-up is a pure drag-flag reset with no effects. -/
theorem no_callback_skips_hit_test_witness :
    handleMouseUp noCallbackState ⟨0, 0⟩ =
      .ok ({ noCallbackState with isDragging := false }, noEff) :=
  no_callback_skips_hit_test.1 noCallbackState ⟨0, 0⟩ rfl

/-- Counterexample for C8 as stated: in `noCallbackState` the pointer-up
at the origin has zero displacement and the exact hit-test of the
up-coordinate would resolve to `n0`, yet the handler performs zero
hit-test invocations — the hit-test does not still run; the whole click
block is skipped. -/
theorem no_callback_skips_hit_test_counterexample :
    noCallbackState.mouseDown = some ⟨0, 0⟩ ∧
    noCallbackState.onNodeClick = false ∧
    findHoveredNode 0 0 noCallbackState.renderedNodes = some "n0" ∧
    handleMouseUp noCallbackState ⟨0, 0⟩ =
      .ok ({ noCallbackState with isDragging := false }, noEff) ∧
    noEff.hitTests = 0 := by
  with_unfolding_all decide

/-- Looking up the key just written by `insertOv` yields the new
value. -/
lemma plook_insertOv_self (ov : List (String × Pos)) (k : String) (v : Pos) :
    plook (insertOv ov k v) k = some v := by
  induction ov with
  | nil => simp [insertOv, plook]
  | cons hd tl ih =>
      obtain ⟨k', v'⟩ := hd
      by_cases hk : k' = k
      · simp [insertOv, hk, plook]
      · simp only [insertOv, if_neg hk, plook]
        exact ih

/-- `insertOv` leaves every other key's binding unchanged. -/
lemma plook_insertOv_ne (ov : List (String × Pos)) {k d : String} (v : Pos)
    (hne : d ≠ k) : plook (insertOv ov k v) d = plook ov d := by
  induction ov with
  | nil =>
      simp only [insertOv, plook]
      rw [if_neg (fun h => hne h.symm)]
  | cons hd tl ih =>
      obtain ⟨k', v'⟩ := hd
      by_cases hk : k' = k
      · subst hk
        simp only [insertOv, if_pos rfl, plook]
        rw [if_neg (fun h => hne h.symm), if_neg (fun h => hne h.symm)]
      · simp only [insertOv, if_neg hk, plook]
        by_cases hd' : k' = d
        · rw [if_pos hd', if_pos hd']
        · rw [if_neg hd', if_neg hd']
          exact ih

/-- Folding `insertOv` never touches the binding of an id that is not
listed. -/
lemma plook_foldl_ins_of_not_mem {ds : List String} {d : String} {a : Pos}
    (hmem : d ∉ ds) :
    ∀ ov : List (String × Pos),
      plook (ds.foldl (fun ov i => insertOv ov i a) ov) d = plook ov d := by
  induction ds with
  | nil => intro ov; rfl
  | cons hd tl ih =>
      intro ov
      simp only [List.foldl_cons]
      have h1 : d ∉ tl := fun h => hmem (List.mem_cons_of_mem _ h)
      have h2 : d ≠ hd := fun h => hmem (h ▸ List.mem_cons_self hd tl)
      rw [ih h1, plook_insertOv_ne ov a h2]

/-- Folding `insertOv` with a fixed value assigns that value to every
listed id. -/
lemma plook_foldl_ins_of_mem {ds : List String} {d : String} (a : Pos) :
    ∀ ov : List (String × Pos), d ∈ ds →
      plook (ds.foldl (fun ov i => insertOv ov i a) ov) d = some a := by
  induction ds with
  | nil => intro ov hmem; cases hmem
  | cons hd tl ih =>
      intro ov hmem
      simp only [List.foldl_cons]
      by_cases htl : d ∈ tl
      · exact ih _ htl
      · have hd' : d = hd := by
          rcases List.mem_cons.1 hmem with h | h
          · exact h
          · exact absurd h htl
        subst hd'
        rw [plook_foldl_ins_of_not_mem htl]
        exact plook_insertOv_self ov d a

/-- C6.  In `computeCollapsedPositions`, the pass of the last-processed
collapsed node overwrites any override previously assigned to its
descendants: appending a collapsed node `c` to the iteration list makes
every descendant of `c` end with `c`'s anchor position (when `c` has a
rendered position), and leaves every other id's override as before;
moreover a collapsed id with no rendered position contributes no
overrides at all, so collapsing only a nonexistent id yields the empty
override map. -/
theorem collapse_override_later_wins :
    (∀ (cs : List String) (c : String) (m : PMap) (rend : RMap)
      (d : String),
      plook (computeCollapsedPositions (cs ++ [c]) m rend) d =
        match plook rend c with
        | some anchor =>
            if d ∈ getDescendantIds c m then some anchor
            else plook (computeCollapsedPositions cs m rend) d
        | none => plook (computeCollapsedPositions cs m rend) d) ∧
    (∀ (cs cs' : List String) (c : String) (m : PMap) (rend : RMap),
      plook rend c = none →
      computeCollapsedPositions (cs ++ c :: cs') m rend =
        computeCollapsedPositions (cs ++ cs') m rend) ∧
    (∀ (c : String) (m : PMap) (rend : RMap), plook rend c = none →
      computeCollapsedPositions [c] m rend = []) := by
  have hstep_none : ∀ (m : PMap) (rend : RMap) (ov : List (String × Pos))
      (c : String), plook rend c = none → collapseStep m rend ov c = ov := by
    intro m rend ov c hc
    simp [collapseStep, hc]
  refine ⟨?_, ?_, ?_⟩
  · intro cs c m rend d
    rw [computeCollapsedPositions, List.foldl_append, List.foldl_cons,
      List.foldl_nil]
    cases hc : plook rend c with
    | none =>
        rw [hstep_none m rend _ c hc]
        rfl
    | some anchor =>
        simp only [collapseStep, hc]
        by_cases hd : d ∈ getDescendantIds c m
        · rw [if_pos hd]
          exact plook_foldl_ins_of_mem anchor _ hd
        · rw [if_neg hd]
          exact plook_foldl_ins_of_not_mem hd _
  · intro cs cs' c m rend hc
    rw [computeCollapsedPositions, computeCollapsedPositions,
      List.foldl_append, List.foldl_append, List.foldl_cons,
      hstep_none m rend _ c hc]
  · intro c m rend hc
    rw [computeCollapsedPositions, List.foldl_cons, List.foldl_nil,
      hstep_none m rend _ c hc]

/-- Witness for C6: on the spec's sample tree, collapsing `root` then
`a` leaves the inner collapsed node's anchor (200, 200) on its
descendant `c`; collapsing only a nonexistent id yields the empty
map. -/
theorem collapse_override_later_wins_witness :
    plook (computeCollapsedPositions (["root"] ++ ["a"]) sampleTree
      samplePositions) "c" = some ⟨200, 200⟩ ∧
    computeCollapsedPositions ["nonexistent"] sampleTree
      samplePositions = [] := by
  constructor
  · rw [collapse_override_later_wins.1 ["root"] "a" sampleTree
      samplePositions "c"]
    with_unfolding_all decide
  · exact collapse_override_later_wins.2.2 "nonexistent" sampleTree
      samplePositions (by with_unfolding_all decide)

/-- An association-list hit is a member of the list. -/
lemma plook_mem {α : Type} :
    ∀ {l : List (String × α)} {k : String} {v : α},
      plook l k = some v → (k, v) ∈ l := by
  intro l
  induction l with
  | nil => intro k v h; simp [plook] at h
  | cons hd tl ih =>
      intro k v h
      obtain ⟨k', v'⟩ := hd
      simp only [plook] at h
      split_ifs at h with hk
      · subst hk
        obtain rfl : v' = v := by simpa using h
        exact List.mem_cons_self _ _
      · exact List.mem_cons_of_mem _ (ih h)

/-- Stack invariant of the descendant traversal: under a rank function
strictly decreasing from parents to children, everything the loop ever
pushes below a start of rank `R` keeps rank `< R`, and the accumulated
descendants all have rank `< R` — at every fuel. -/
lemma getDescAux_rank_lt {m : PMap} {rank : String → Nat}
    (HR : ∀ e ∈ m, ∀ ch ∈ e.2, rank (childIdOf ch) < rank e.1) (R : Nat) :
    ∀ (fuel : Nat) (stack acc : List String),
      (∀ s ∈ stack, rank s ≤ R) → (∀ a ∈ acc, rank a < R) →
      ∀ x ∈ getDescAux m fuel stack acc, rank x < R := by
  intro fuel
  induction fuel with
  | zero =>
      intro stack acc hs ha x hx
      simp only [getDescAux] at hx
      exact ha x hx
  | succ n ih =>
      intro stack acc hs ha x hx
      cases stack with
      | nil =>
          simp only [getDescAux] at hx
          exact ha x hx
      | cons cur rest =>
          simp only [getDescAux] at hx
          cases hpl : plook m cur with
          | none =>
              rw [hpl] at hx
              exact ih rest acc
                (fun s hs' => hs s (List.mem_cons_of_mem _ hs')) ha x hx
          | some children =>
              rw [hpl] at hx
              have hcur : rank cur ≤ R := hs cur (List.mem_cons_self _ _)
              have hch : ∀ i ∈ children.map childIdOf, rank i < R := by
                intro i hi
                obtain ⟨ch, hchm, rfl⟩ := List.mem_map.1 hi
                exact lt_of_lt_of_le
                  (HR (cur, children) (plook_mem hpl) ch hchm) hcur
              refine ih _ _ ?_ ?_ x hx
              · intro s hs'
                rcases List.mem_append.1 hs' with h | h
                · exact (hch s (List.mem_reverse.1 h)).le
                · exact hs s (List.mem_cons_of_mem _ h)
              · intro a ha'
                rcases List.mem_append.1 ha' with h | h
                · exact ha a h
                · exact hch a h

/-- C10.  For every node id and every acyclic parent-to-children map —
acyclicity witnessed by a rank function strictly decreasing from
parents to children — the descendant traversal never includes the
queried id itself (at any loop fuel, in particular in
`getDescendantIds`); consequently collapsing a single node assigns no
override to that node's own id, and only strict descendants receive
overrides. -/
theorem descendants_exclude_self (m : PMap) (rank : String → Nat)
    (nodeId : String)
    (HR : ∀ e ∈ m, ∀ ch ∈ e.2, rank (childIdOf ch) < rank e.1) :
    (∀ fuel, nodeId ∉ getDescAux m fuel [nodeId] []) ∧
    nodeId ∉ getDescendantIds nodeId m ∧
    (∀ rend : RMap,
      plook (computeCollapsedPositions [nodeId] m rend) nodeId = none) ∧
    (∀ (rend : RMap) (d : String) (p : Pos),
      plook (computeCollapsedPositions [nodeId] m rend) d = some p →
      d ∈ getDescendantIds nodeId m) := by
  have hfuel : ∀ fuel, nodeId ∉ getDescAux m fuel [nodeId] [] := by
    intro fuel hmem
    have := getDescAux_rank_lt HR (rank nodeId) fuel [nodeId] []
      (by intro s hs; rw [List.mem_singleton.1 hs])
      (by intro a ha; cases ha) nodeId hmem
    exact lt_irrefl _ this
  refine ⟨hfuel, hfuel _, ?_, ?_⟩
  · intro rend
    simp only [computeCollapsedPositions, List.foldl_cons, List.foldl_nil,
      collapseStep]
    cases hc : plook rend nodeId with
    | none => rfl
    | some anchor =>
        show plook ((getDescendantIds nodeId m).foldl
          (fun ov i => insertOv ov i anchor) []) nodeId = none
        have hnm : nodeId ∉ getDescendantIds nodeId m := hfuel (descFuel m)
        rw [plook_foldl_ins_of_not_mem hnm]
        rfl
  · intro rend d p h
    by_contra hd
    simp only [computeCollapsedPositions, List.foldl_cons, List.foldl_nil,
      collapseStep] at h
    cases hc : plook rend nodeId with
    | none =>
        rw [hc] at h
        have h' : plook ([] : List (String × Pos)) d = some p := h
        simp [plook] at h'
    | some anchor =>
        rw [hc] at h
        have h' : plook ((getDescendantIds nodeId m).foldl
            (fun ov i => insertOv ov i anchor) []) d = some p := h
        rw [plook_foldl_ins_of_not_mem hd] at h'
        simp [plook] at h'

/-- Witness for C10: on the spec's sample tree, `a` is not its own
descendant and collapsing `a` assigns no override to `a` itself. -/
theorem descendants_exclude_self_witness :
    "a" ∉ getDescendantIds "a" sampleTree ∧
    plook (computeCollapsedPositions ["a"] sampleTree samplePositions)
      "a" = none :=
  ⟨(descendants_exclude_self sampleTree sampleRank "a"
      (by with_unfolding_all decide)).2.1,
   (descendants_exclude_self sampleTree sampleRank "a"
      (by with_unfolding_all decide)).2.2.1 samplePositions⟩

end Cactus
